import Mathlib

set_option maxRecDepth 10000

/-!
# Verification of the catalog & similarity-matching engine (`scripts/compare-repos.py`)

This file is a shallow embedding, in Lean 4, of the pure computational core of
`scripts/compare-repos.py`: the frontmatter parser, the keyword extractor, the
similarity engine (`name_similarity`, `keyword_similarity`, `combined_similarity`),
the overlap/gap finder (`find_overlaps`, `find_unmatched`), the report generator
(`generate_report`, modelled as the data each report section renders), and the
catalog store (`save_catalog` / `load_catalog`, modelled at the level of the JSON
records they write and read).

Modelling conventions:
* Python `float` arithmetic is modelled by exact rational arithmetic (`ℚ`).
  Every float computed by the engine is of the form `0.6 * (i/u) + 0.4 * (i'/u')`
  with tiny integer numerators and denominators; in IEEE binary64 these
  computations realise the same comparisons and the same exact values
  (in particular `0.6 * 1.0 + 0.4 * 1.0 == 1.0` holds in binary64).
* Python `str` is modelled by `String` / `List Char`; the ASCII fragment of
  `str.lower`, `str.strip` and `str.split` is modelled exactly.
* Python `set`/`dict` are modelled by `Finset` / association lists.
* Regular expressions used by the script are translated to explicit scanning
  functions implementing the same backtracking semantics; comments at each
  definition record the translation.
-/

/-! ## Python string primitives -/

/-- The character class matched by Python's `\s` regex class and split on by
`str.split()` / stripped by `str.strip()` (ASCII fragment):
space, tab, newline, carriage return, vertical tab, form feed. -/
def isPySpace (c : Char) : Bool :=
  c = ' ' || c = '\t' || c = '\n' || c = '\r' || c = '\x0b' || c = '\x0c'

/-- Drop the trailing run of characters satisfying `p` (helper for `strip`). -/
def dropTrail (p : Char → Bool) (l : List Char) : List Char :=
  (l.reverse.dropWhile p).reverse

/-- Python `str.strip()`: remove leading and trailing whitespace. -/
def pyStrip (l : List Char) : List Char :=
  dropTrail isPySpace (l.dropWhile isPySpace)

/-- Python `str.strip(q)` for a single character `q`: remove ALL leading and
trailing occurrences of `q` (not just one layer). -/
def pyStripChar (q : Char) (l : List Char) : List Char :=
  dropTrail (fun c => c = q) (l.dropWhile (fun c => c = q))

/-- Split a character list at every character satisfying `p`, keeping empty
segments — the semantics of Python `str.split(sep)` for a one-character
separator (with `p` testing equality with the separator). -/
def splitByP (p : Char → Bool) : List Char → List (List Char)
  | [] => [[]]
  | c :: cs =>
    if p c then [] :: splitByP p cs
    else
      match splitByP p cs with
      | [] => [[c]]
      | s :: ss => (c :: s) :: ss

/-- Python `str.split()` with no separator: split on whitespace runs and drop
empty segments. -/
def wordsBy (p : Char → Bool) (l : List Char) : List (List Char) :=
  (splitByP p l).filter (fun w => !w.isEmpty)

/-- ASCII fragment of Python `str.lower`, applied characterwise. -/
def lowerChar (c : Char) : Char :=
  if 65 ≤ c.toNat ∧ c.toNat ≤ 90 then Char.ofNat (c.toNat + 32) else c

/-- ASCII uppercase test (the letters `A`–`Z`). -/
def isAsciiUpper (c : Char) : Bool :=
  65 ≤ c.toNat && c.toNat ≤ 90

/-- Replace one character by another everywhere — Python `str.replace(a, b)`
for one-character `a`, `b`. -/
def replChar (a b : Char) (l : List Char) : List Char :=
  l.map (fun c => if c = a then b else c)

/-- Python string comparison `a <= b`: lexicographic by code point.  (Python
sorts are modelled below by `List.insertionSort`, which is stable — exactly
the guarantee CPython's `sorted`/`list.sort` give.) -/
def lexLe : List Char → List Char → Bool
  | [], _ => true
  | _ :: _, [] => false
  | a :: as, b :: bs =>
    if a < b then true
    else if b < a then false
    else lexLe as bs

/-! ## Data model

`Component` mirrors the dataclass of `compare-repos.py` (lines 45–57).
`frontmatter : dict` is modelled as an association list of string pairs. -/

structure Component where
  kind : String
  name : String
  repo : String
  path : String
  description : String := ""
  keywords : List String := []
  frontmatter : List (String × String) := []
  line_count : Nat := 0
  has_references : Bool := false
  reference_files : List String := []
deriving DecidableEq, Repr

/-! ## Similarity engine (`compare-repos.py` lines 215–245) -/

/-- The word set of a component name:
`set(a.replace("-", " ").replace("_", " ").lower().split())` (line 217). -/
def nameWords (a : String) : Finset String :=
  ((wordsBy isPySpace
      ((replChar '_' ' ' (replChar '-' ' ' a.data)).map lowerChar)).map
    (fun w => String.mk w)).toFinset

/-- `name_similarity` (lines 215–223): Jaccard index of the two name word sets,
`0.0` when either set is empty. -/
def name_similarity (a b : String) : ℚ :=
  let words_a := nameWords a
  let words_b := nameWords b
  if words_a = ∅ ∨ words_b = ∅ then 0
  else ((words_a ∩ words_b).card : ℚ) / ((words_a ∪ words_b).card : ℚ)

/-- `keyword_similarity` (lines 226–234): Jaccard index of the two keyword
sets, `0.0` when either set is empty. -/
def keyword_similarity (a b : List String) : ℚ :=
  let set_a := a.toFinset
  let set_b := b.toFinset
  if set_a = ∅ ∨ set_b = ∅ then 0
  else ((set_a ∩ set_b).card : ℚ) / ((set_a ∪ set_b).card : ℚ)

/-- `combined_similarity` (lines 237–245): `0.6 * ns + 0.4 * ks`, where the
name score `ns` is forced to `1.0` on an exact name match. -/
def combined_similarity (ours theirs : Component) : ℚ :=
  let ns := name_similarity ours.name theirs.name
  let ks := keyword_similarity ours.keywords theirs.keywords
  let ns := if ours.name = theirs.name then 1 else ns
  0.6 * ns + 0.4 * ks

/-! ## Frontmatter parser (`compare-repos.py` lines 67–81)

`parse_frontmatter` first extracts the block between the `---` markers with
the regex `\A---\s*\n(.*?\n)---\s*\n` and then runs a line loop over
`m.group(1).splitlines()`.  The embedding models the line loop, taking the
lines of the extracted block as input; the claims under study concern only
the per-line key/value processing. -/

/-- Python `dict` update semantics: overwrite the value of an existing key in
place, otherwise append the new binding at the end. -/
def dictInsert (k : String) (v : String) (d : List (String × String)) :
    List (String × String) :=
  if d.any (fun p => p.1 = k) then
    d.map (fun p => if p.1 = k then (k, v) else p)
  else d ++ [(k, v)]

/-- The value normalisation of line 79:
`val.strip().strip('"').strip("'")`. -/
def stripValue (val : List Char) : List Char :=
  pyStripChar '\'' (pyStripChar '"' (pyStrip val))

/-- The loop body of `parse_frontmatter` (lines 72–81), over the lines of the
frontmatter block: strip each line, skip blanks and `#` comments, split the
rest at the first colon, strip the key, normalise the value. -/
def parseFrontmatterLines (lines : List String) : List (String × String) :=
  lines.foldl
    (fun result line =>
      let l := pyStrip line.data
      if l.isEmpty then result
      else if l.head? = some '#' then result
      else if l.contains ':' then
        let key := l.takeWhile (fun c => c ≠ ':')
        let val := (l.dropWhile (fun c => c ≠ ':')).drop 1
        dictInsert (String.mk (pyStrip key)) (String.mk (stripValue val)) result
      else result)
    []

/-! ## Keyword extractor (`compare-repos.py` lines 84–107) -/

/-- Keywords from the component name (lines 87–90):
`for part in name.replace("-", " ").split(): if len(part) > 2: add(part.lower())`.
Note that only the hyphen is replaced here — underscores are NOT split
(unlike `name_similarity`). -/
def nameKeywords (name : String) : List String :=
  (wordsBy isPySpace (replChar '-' ' ' name.data)).filterMap
    (fun part =>
      if 2 < part.length then some (String.mk (part.map lowerChar)) else none)

/-- The character class `[a-z0-9]` kept by `re.sub(r"[^a-z0-9]", "", word)`
(line 96). -/
def isLowerDigit (c : Char) : Bool :=
  (97 ≤ c.toNat && c.toNat ≤ 122) || (48 ≤ c.toNat && c.toNat ≤ 57)

/-- The class-run-then-group tail `C+(.+)` shared by both regex
translations (`\s+(.+)$` of the heading regex and `[:\s]+(.+)` of the
trigger regex), with the regex engine's greedy backtracking: the class run
`C+` first takes the maximal run of class characters, then gives characters
back (down to one) until `(.+)` can match at least one non-newline
character; `(.+)` then runs greedily to the next newline or the end of the
text (where the trailing `$` of the heading pattern always holds).  Returns
the matched group and the remaining input after the whole match, or `none`
when no split works.  Note the class run may cross newlines (`\s` matches
`\n`), so a group can lie on a later line than the match start. -/
def matchClassTail (cls : Char → Bool) (m : List Char) : Option (List Char × List Char) :=
  let run := m.takeWhile cls
  matchClassTailAux m run.length
where
  /-- Try a class run of length `k`, largest first. -/
  matchClassTailAux (m : List Char) : Nat → Option (List Char × List Char)
    | 0 => none
    | k + 1 =>
      let after := m.drop (k + 1)
      match after.head? with
      | some c =>
        if c ≠ '\n' then
          some (after.takeWhile (fun d => d ≠ '\n'),
                after.dropWhile (fun d => d ≠ '\n'))
        else matchClassTailAux m k
      | none => matchClassTailAux m k

/-- Attempt the heading regex `^##\s+(.+)$` (MULTILINE, line 93) at a
line-start position: the literal `##`, then the whitespace run and group.
Because `\s` matches newlines, a `##` line whose remainder is whitespace
captures the next non-whitespace line suffix as its group. -/
def tryHeadingMatch (cs : List Char) : Option (List Char × List Char) :=
  match cs with
  | '#' :: '#' :: m => matchClassTail isPySpace m
  | _ => none

/-- `re.finditer` scanning for the heading regex: `^` restricts match starts
to line-start positions (position `0` or right after a newline); after a
match, scanning continues at the match end (the end of the group's line,
which is not a line start).  `fuel` bounds the recursion; it is called with
the input length, which suffices since every step consumes at least one
character. -/
def scanHeadings : Nat → Bool → List Char → List (List Char)
  | 0, _, _ => []
  | _, _, [] => []
  | fuel + 1, atLineStart, c :: cs =>
    if atLineStart then
      match tryHeadingMatch (c :: cs) with
      | some (g, rest) => g :: scanHeadings fuel false rest
      | none => scanHeadings fuel (c = '\n') cs
    else scanHeadings fuel (c = '\n') cs

/-- Keywords from one heading-regex group (lines 94–98): the group is
stripped, lowercased and split on whitespace (strip-then-split equals
split); each word is filtered to `[a-z0-9]` and kept when longer than 3. -/
def headingKeywordsOfGroup (g : List Char) : List String :=
  (wordsBy isPySpace g).filterMap (fun w =>
    let word := (w.map lowerChar).filter isLowerDigit
    if 3 < word.length then some (String.mk word) else none)

/-- All heading-derived keywords of a text (lines 93–98). -/
def headingKeywords (text : String) : List String :=
  (scanHeadings text.data.length true text.data).flatMap headingKeywordsOfGroup

/-- The character class `[:\s]` of the trigger regex. -/
def isColonSpace (c : Char) : Bool :=
  c = ':' || isPySpace c

/-- The `[:\s]+(.+)` tail of the trigger regex (line 101). -/
def matchTriggerTail (m : List Char) : Option (List Char × List Char) :=
  matchClassTail isColonSpace m

/-- Attempt the trigger regex `(?:trigger|keyword|pattern)[s]?[:\s]+(.+)`
(IGNORECASE) at the start of the input.  The three alternatives have
pairwise distinct first letters, so at most one can match; the optional `s`,
when present in the input, must be consumed for the match to proceed (an
unconsumed `s` cannot start `[:\s]+`), but the engine's fallback to the
empty option is kept literally. -/
def tryTriggerMatch (cs : List Char) : Option (List Char × List Char) :=
  let lit := (cs.take 7).map lowerChar
  if lit = "trigger".data ∨ lit = "keyword".data ∨ lit = "pattern".data then
    let m := cs.drop 7
    match m.head? with
    | some c =>
      if lowerChar c = 's' then
        (matchTriggerTail (m.drop 1)).orElse (fun _ => matchTriggerTail m)
      else matchTriggerTail m
    | none => none
  else none

/-- `re.finditer` scanning for the trigger regex: try a match at every
position, left to right; after a match, continue at the match end
(non-overlapping matches).  `fuel` bounds the recursion; it is called with
the input length, which suffices since every step consumes at least one
character. -/
def scanTriggers : Nat → List Char → List (List Char)
  | 0, _ => []
  | _, [] => []
  | fuel + 1, c :: cs =>
    match tryTriggerMatch (c :: cs) with
    | some (g, rest) => g :: scanTriggers fuel rest
    | none => scanTriggers fuel cs

/-- Keywords from one trigger-regex group (lines 102–105):
split on commas, `word.strip().strip('"').strip("'").lower()`, keep when
`2 < len(word) < 30`. -/
def triggerKeywordsOfGroup (g : List Char) : List String :=
  (splitByP (fun c => c = ',') g).filterMap (fun w =>
    let word := (stripValue w).map lowerChar
    if 2 < word.length ∧ word.length < 30 then some (String.mk word) else none)

/-- All trigger-derived keywords of a text (lines 101–105). -/
def triggerKeywords (text : String) : List String :=
  (scanTriggers text.data.length text.data).flatMap triggerKeywordsOfGroup

/-- `sorted(keywords)` where `keywords` is a Python `set`: the ascending
sorted list of the distinct elements. -/
def pySortedSet (l : List String) : List String :=
  List.insertionSort (fun a b => lexLe a.data b.data = true) l.dedup

/-- `extract_keywords` (lines 84–107): merge the name-derived,
heading-derived and trigger-derived keywords into a set and return it
sorted. -/
def extract_keywords (text : String) (name : String) : List String :=
  pySortedSet (nameKeywords name ++ headingKeywords text ++ triggerKeywords text)

/-! ## Comparison engine (`compare-repos.py` lines 252–300) -/

/-- The `Match` dataclass (lines 252–258). -/
structure Match where
  ours : Component
  theirs : Component
  similarity : ℚ
  size_ratio : ℚ
deriving DecidableEq, Repr

/-- The match built for a qualifying pair (lines 275–276):
`size_ratio = theirs.line_count / max(ours.line_count, 1)`. -/
def mkMatch (ours theirs : Component) : Match :=
  { ours := ours, theirs := theirs,
    similarity := combined_similarity ours theirs,
    size_ratio := (theirs.line_count : ℚ) / (max ours.line_count 1 : ℕ) }

/-- The `matches` list built by the nested loops of `find_overlaps`
(lines 267–276), in discovery order: for each `ours`, for each `theirs`,
skip pairs of different kind, keep pairs with similarity ≥ threshold. -/
def overlapCandidates (our_components external_components : List Component)
    (threshold : ℚ) : List Match :=
  our_components.flatMap (fun ours =>
    external_components.filterMap (fun theirs =>
      if ours.kind ≠ theirs.kind then none
      else if combined_similarity ours theirs ≥ threshold then
        some (mkMatch ours theirs)
      else none))

/-- `find_overlaps` (lines 261–280): the candidate matches sorted by
similarity descending with Python's stable `list.sort(key=..., reverse=True)`
(equal keys keep discovery order). -/
def find_overlaps (our_components external_components : List Component)
    (threshold : ℚ) : List Match :=
  List.insertionSort (fun a b => b.similarity ≤ a.similarity)
    (overlapCandidates our_components external_components threshold)

/-- The `best_sim` accumulation of `find_unmatched` (lines 292–297): start at
`0.0`, fold `max` over the similarities against same-kind "ours" components. -/
def bestSim (our_components : List Component) (ext : Component) : ℚ :=
  our_components.foldl
    (fun best ours =>
      if ours.kind ≠ ext.kind then best
      else max best (combined_similarity ours ext))
    0

/-- `find_unmatched` (lines 283–300): keep each external component whose best
same-kind similarity is strictly below the threshold and whose name equals no
"ours" component's name (`our_names = {c.name for c in our_components}`). -/
def find_unmatched (external_components our_components : List Component)
    (threshold : ℚ) : List Component :=
  external_components.filter (fun ext =>
    decide (bestSim our_components ext < threshold) &&
      !our_components.any (fun c => c.name = ext.name))

/-! ## Catalog store (`compare-repos.py` lines 430–467)

The JSON file written by `save_catalog` is a list of records; a record is
modelled as a `SavedComponent`, with `Option` fields for the keys that
`load_catalog` reads with `dict.get` defaults (`none` = key absent in the
JSON object).  `kind`, `name`, `repo` and `path` are read with `d[...]` and
are therefore mandatory.  `json.dumps`/`json.loads` themselves are assumed to
be mutually inverse on such records. -/

structure SavedComponent where
  kind : String
  name : String
  repo : String
  path : String
  description : Option String
  keywords : Option (List String)
  line_count : Option Nat
  has_references : Option Bool
  reference_files : Option (List String)
deriving DecidableEq, Repr

/-- The record written per component by `save_catalog` (lines 434–445): every
field except `frontmatter` is serialized. -/
def serializeComponent (c : Component) : SavedComponent :=
  { kind := c.kind, name := c.name, repo := c.repo, path := c.path,
    description := some c.description, keywords := some c.keywords,
    line_count := some c.line_count, has_references := some c.has_references,
    reference_files := some c.reference_files }

/-- `save_catalog` (lines 430–446), as the list of records written to JSON. -/
def save_catalog (components : List Component) : List SavedComponent :=
  components.map serializeComponent

/-- The `Component(...)` reconstruction of `load_catalog` (lines 455–465):
required fields read directly, optional fields via `d.get` with defaults;
`frontmatter` is not passed and takes its dataclass default `{}`. -/
def deserializeComponent (d : SavedComponent) : Component :=
  { kind := d.kind, name := d.name, repo := d.repo, path := d.path,
    description := d.description.getD "",
    keywords := d.keywords.getD [],
    frontmatter := [],
    line_count := d.line_count.getD 0,
    has_references := d.has_references.getD false,
    reference_files := d.reference_files.getD [] }

/-- `load_catalog` (lines 449–467) on the decoded record list. -/
def load_catalog (data : List SavedComponent) : List Component :=
  data.map deserializeComponent

/-! ## Report generator (`compare-repos.py` lines 307–423)

`generate_report` renders markdown text.  It is modelled as the data each
section of the report displays, with one structure field per intermediate
collection the code computes; string formatting, float formatting and the
80/100-character description truncations are presentation-only and carry no
additional components, so they are not modelled.  The external catalogs,
`external_by_repo : dict[str, list[Component]]`, are modelled as an
association list in insertion order. -/

/-- The kind filter test used throughout `generate_report`:
`not filter_kind or c.kind == filter_kind`. -/
def kindMatches (filter_kind : Option String) (kind : String) : Bool :=
  match filter_kind with
  | none => true
  | some k => kind = k

/-- Python tuple comparison for the sort key `(c.kind, c.name)` of the
unmatched-component rows (line 407): compare kinds first, then names. -/
def kindNameLe (a b : Component) : Bool :=
  if a.kind = b.kind then lexLe a.name.data b.name.data
  else lexLe a.kind.data b.kind.data

/-- The dedup-by-`(ours.name, theirs.name, theirs.repo)` loop of the overlap
table (lines 358–363): first occurrence wins. -/
def dedupMatchRows (ms : List Match) : List Match :=
  (ms.foldl
    (fun acc m =>
      let key := (m.ours.name, m.theirs.name, m.theirs.repo)
      if acc.2.contains key then acc else (acc.1 ++ [m], key :: acc.2))
    ([], [])).1

/-- The `by_repo.setdefault(c.repo, []).append(c)` grouping of unmatched
components (lines 398–400): association list in first-occurrence order. -/
def groupByRepo (cs : List Component) : List (String × List Component) :=
  cs.foldl
    (fun acc c =>
      if acc.any (fun p => p.1 = c.repo) then
        acc.map (fun p => if p.1 = c.repo then (p.1, p.2 ++ [c]) else p)
      else acc ++ [(c.repo, [c])])
    []

/-- The data rendered by each section of the report. -/
structure Report where
  /-- Section "Our Plugin Inventory": the filtered own components (line 325). -/
  our_filtered : List Component
  /-- Per kind in `["skill", "agent"]`, the inventory table rows sorted by
  name (lines 326–338); kinds with no items render no table. -/
  inventory : List (String × List Component)
  /-- Section "External Repos Scanned" (lines 341–347): per repo (sorted by
  name), the skill and agent counts of the filtered components. -/
  repo_summaries : List (String × Nat × Nat)
  /-- The filtered matches (line 351). -/
  filtered_matches : List Match
  /-- The overlap table rows after dedup by
  `(ours.name, theirs.name, theirs.repo)` (lines 355–368). -/
  overlap_rows : List Match
  /-- Section "High-Similarity Matches": filtered matches with
  similarity ≥ 0.5 (line 372). -/
  high_matches : List Match
  /-- The filtered unmatched components (line 390). -/
  filtered_unmatched : List Component
  /-- Section "Unmatched External Components": grouped by repo, repos sorted
  by name, rows sorted by `(kind, name)` (lines 396–410). -/
  unmatched_groups : List (String × List Component)
  /-- Statistics section (lines 413–420), in order: our component count,
  external components scanned, overlapping matches, high-similarity count,
  unmatched external count. -/
  stats_our : Nat
  stats_external : Nat
  stats_matches : Nat
  stats_high : Nat
  stats_unmatched : Nat
deriving Repr

/-- `generate_report` (lines 307–423), modelled as the section data of the
produced report. -/
def generate_report (our_components : List Component)
    (external_by_repo : List (String × List Component))
    (match_list : List Match) (unmatched : List Component)
    (filter_kind : Option String) : Report :=
  let our_filtered := our_components.filter (fun c => kindMatches filter_kind c.kind)
  let inventory :=
    (["skill", "agent"].map (fun kind =>
        (kind, List.insertionSort (fun a b => lexLe a.name.data b.name.data = true)
          (our_filtered.filter (fun c => c.kind = kind))))).filter
      (fun p => !p.2.isEmpty)
  let repo_summaries :=
    ((List.insertionSort (fun a b => lexLe a.1.data b.1.data = true) external_by_repo).map
      (fun p =>
        let filtered := p.2.filter (fun c => kindMatches filter_kind c.kind)
        (p.1, (filtered.filter (fun c => c.kind = "skill")).length,
          (filtered.filter (fun c => c.kind = "agent")).length)))
  let filtered_matches := match_list.filter (fun m => kindMatches filter_kind m.ours.kind)
  let overlap_rows := dedupMatchRows filtered_matches
  let high_matches := filtered_matches.filter (fun m => decide (m.similarity ≥ 0.5))
  let filtered_unmatched := unmatched.filter (fun c => kindMatches filter_kind c.kind)
  let unmatched_groups :=
    ((List.insertionSort (fun a b => lexLe a.1.data b.1.data = true)
        (groupByRepo filtered_unmatched)).map
      (fun p =>
        (p.1, List.insertionSort (fun a b => kindNameLe a b = true) p.2)))
  { our_filtered := our_filtered
    inventory := inventory
    repo_summaries := repo_summaries
    filtered_matches := filtered_matches
    overlap_rows := overlap_rows
    high_matches := high_matches
    filtered_unmatched := filtered_unmatched
    unmatched_groups := unmatched_groups
    stats_our := our_filtered.length
    stats_external := (external_by_repo.map (fun p => p.2.length)).sum
    stats_matches := filtered_matches.length
    stats_high := high_matches.length
    stats_unmatched := filtered_unmatched.length }

/-! # Verified properties

Helper lemmas come first; the claim theorems follow, one per claim of the
specification under review, each preceded by a doc comment naming the claim. -/

/-! ## Bounds and symmetry of the similarity engine -/

theorem name_similarity_nonneg (a b : String) : 0 ≤ name_similarity a b := by
  simp only [name_similarity]
  split
  · exact le_refl 0
  · exact div_nonneg (Nat.cast_nonneg _) (Nat.cast_nonneg _)

theorem name_similarity_le_one (a b : String) : name_similarity a b ≤ 1 := by
  simp only [name_similarity]
  split
  · exact zero_le_one
  · exact div_le_one_of_le₀
      (by exact_mod_cast Finset.card_le_card Finset.inter_subset_union)
      (Nat.cast_nonneg _)

theorem keyword_similarity_nonneg (a b : List String) : 0 ≤ keyword_similarity a b := by
  simp only [keyword_similarity]
  split
  · exact le_refl 0
  · exact div_nonneg (Nat.cast_nonneg _) (Nat.cast_nonneg _)

theorem keyword_similarity_le_one (a b : List String) : keyword_similarity a b ≤ 1 := by
  simp only [keyword_similarity]
  split
  · exact zero_le_one
  · exact div_le_one_of_le₀
      (by exact_mod_cast Finset.card_le_card Finset.inter_subset_union)
      (Nat.cast_nonneg _)

theorem combined_similarity_nonneg (x y : Component) : 0 ≤ combined_similarity x y := by
  have h2 := keyword_similarity_nonneg x.keywords y.keywords
  have hns : 0 ≤ (if x.name = y.name then (1 : ℚ) else name_similarity x.name y.name) := by
    split
    · exact zero_le_one
    · exact name_similarity_nonneg x.name y.name
  simp only [combined_similarity]
  have c1 : (0 : ℚ) ≤ 0.6 := by norm_num
  have c2 : (0 : ℚ) ≤ 0.4 := by norm_num
  exact add_nonneg (mul_nonneg c1 hns) (mul_nonneg c2 h2)

theorem combined_similarity_le_one (x y : Component) : combined_similarity x y ≤ 1 := by
  have h2 := keyword_similarity_le_one x.keywords y.keywords
  have h2' := keyword_similarity_nonneg x.keywords y.keywords
  have hns : (if x.name = y.name then (1 : ℚ) else name_similarity x.name y.name) ≤ 1 := by
    split
    · exact le_refl 1
    · exact name_similarity_le_one x.name y.name
  simp only [combined_similarity]
  nlinarith

theorem name_similarity_comm (a b : String) :
    name_similarity a b = name_similarity b a := by
  simp only [name_similarity]
  rw [Finset.inter_comm, Finset.union_comm]
  by_cases h1 : nameWords a = ∅ <;> by_cases h2 : nameWords b = ∅ <;> simp [h1, h2]

theorem keyword_similarity_comm (a b : List String) :
    keyword_similarity a b = keyword_similarity b a := by
  simp only [keyword_similarity]
  rw [Finset.inter_comm, Finset.union_comm]
  by_cases h1 : a.toFinset = ∅ <;> by_cases h2 : b.toFinset = ∅ <;> simp [h1, h2]

/-- **C8**: `combined_similarity` is symmetric: for every pair of components
`a` and `b`, `combined_similarity a b = combined_similarity b a`. -/
theorem combined_similarity_symm (a b : Component) :
    combined_similarity a b = combined_similarity b a := by
  by_cases h : a.name = b.name
  · simp only [combined_similarity]
    rw [if_pos h, if_pos h.symm, keyword_similarity_comm]
  · simp only [combined_similarity]
    rw [if_neg h, if_neg (fun hh => h hh.symm), keyword_similarity_comm,
      name_similarity_comm]

/-! ## C1: self-similarity -/

/-- A component whose keyword list is empty (keyword extraction can yield an
empty list, e.g. for a short name and no headings or trigger lines). -/
def compNoKeywords : Component :=
  { kind := "skill", name := "pdf-export", repo := "ours",
    path := "skills/pdf-export/SKILL.md" }

/-- A component with a nonempty keyword list. -/
def compWithKeywords : Component :=
  { kind := "skill", name := "pdf-export", repo := "theirs",
    path := "skills/pdf-export/SKILL.md", keywords := ["export", "pdf"] }

/-- **C1, counterexample**: the claim says `combined_similarity c c = 1.0`
for every component, including one with an empty keyword list; but for a
component with no keywords the keyword sub-score of the pair `(c, c)` is
`0.0`, so the combined score is `0.6 * 1 + 0.4 * 0 = 3/5 ≠ 1`. -/
theorem combined_similarity_self_empty_keywords :
    combined_similarity compNoKeywords compNoKeywords = 3 / 5 ∧ (3 / 5 : ℚ) ≠ 1 := by
  constructor
  · simp [combined_similarity, keyword_similarity, compNoKeywords]
    norm_num
  · norm_num

/-- **C1 (amended)**: for every component `c`, `combined_similarity c c = 1`
when `c`'s keyword list is nonempty (exact-name bonus forces the name
sub-score to `1` and the keyword sub-score of a nonempty set with itself is
`1`); when the keyword list is empty the self-similarity is `3/5` (= 0.6),
not `1`. -/
theorem combined_similarity_self (c : Component) :
    (c.keywords ≠ [] → combined_similarity c c = 1) ∧
    (c.keywords = [] → combined_similarity c c = 3 / 5) := by
  constructor
  · intro h
    have hne : c.keywords.toFinset ≠ ∅ := by
      simpa [List.toFinset_eq_empty_iff] using h
    have hcard : ((c.keywords.toFinset.card : ℚ)) ≠ 0 := by
      exact_mod_cast Finset.card_ne_zero.mpr (Finset.nonempty_iff_ne_empty.mpr hne)
    have hks : keyword_similarity c.keywords c.keywords = 1 := by
      simp only [keyword_similarity]
      rw [if_neg (by simp [hne]), Finset.inter_self, Finset.union_self, div_self hcard]
    simp [combined_similarity, hks]
    norm_num
  · intro h
    have hks : keyword_similarity c.keywords c.keywords = 0 := by
      simp [keyword_similarity, h]
    simp [combined_similarity, hks]
    norm_num

/-- **C1 (witness)**: the amended theorem applied to a component with
keywords (self-similarity `1`) and to one without (self-similarity `3/5`). -/
theorem combined_similarity_self_witness :
    compWithKeywords.keywords ≠ [] ∧
      combined_similarity compWithKeywords compWithKeywords = 1 ∧
      compNoKeywords.keywords = [] ∧
      combined_similarity compNoKeywords compNoKeywords = 3 / 5 :=
  ⟨by decide, (combined_similarity_self compWithKeywords).1 (by decide),
    rfl, (combined_similarity_self compNoKeywords).2 rfl⟩

/-! ## C7: boundedness and empty-set sub-scores -/

/-- **C7**: for every pair of components the combined similarity lies in
`[0, 1]`; when either name yields an empty word set, `name_similarity`
returns `0.0` (the exact-name branch of `combined_similarity` is the only
exception); and when either keyword set is empty, `keyword_similarity`
returns `0.0`.  No division by zero occurs anywhere (in the nonempty case
the union is nonempty, and the empty case short-circuits to `0.0`). -/
theorem combined_similarity_bounds (a b : Component) :
    0 ≤ combined_similarity a b ∧ combined_similarity a b ≤ 1 ∧
    (nameWords a.name = ∅ ∨ nameWords b.name = ∅ →
      name_similarity a.name b.name = 0) ∧
    (a.keywords.toFinset = ∅ ∨ b.keywords.toFinset = ∅ →
      keyword_similarity a.keywords b.keywords = 0) := by
  refine ⟨combined_similarity_nonneg a b, combined_similarity_le_one a b, ?_, ?_⟩
  · intro h
    simp only [name_similarity]
    rw [if_pos h]
  · intro h
    simp only [keyword_similarity]
    rw [if_pos h]

/-- A component with a blank name: its name word set is empty. -/
def compBlankName : Component :=
  { kind := "agent", name := "", repo := "ext", path := "agents/x.md" }

/-- **C7 (witness)**: the bounds theorem applied to concrete components,
with both empty-set hypotheses discharged at a blank-named, keyword-free
component. -/
theorem combined_similarity_bounds_witness :
    0 ≤ combined_similarity compBlankName compWithKeywords ∧
      (nameWords compBlankName.name = ∅ ∨ nameWords compWithKeywords.name = ∅) ∧
      name_similarity compBlankName.name compWithKeywords.name = 0 ∧
      (compBlankName.keywords.toFinset = ∅ ∨ compWithKeywords.keywords.toFinset = ∅) ∧
      keyword_similarity compBlankName.keywords compWithKeywords.keywords = 0 :=
  ⟨(combined_similarity_bounds compBlankName compWithKeywords).1,
    Or.inl (by decide),
    (combined_similarity_bounds compBlankName compWithKeywords).2.2.1 (Or.inl (by decide)),
    Or.inl (by decide),
    (combined_similarity_bounds compBlankName compWithKeywords).2.2.2 (Or.inl (by decide))⟩

/-! ## C6: catalog round-trip and defaulting -/

/-- **C6**: loading the catalog saved for a component list yields the same
list with every field preserved except `frontmatter`, which is reset to the
empty mapping; and deserialization of a record carrying only the mandatory
fields (`kind`, `name`, `repo`, `path`) defaults every optional field to its
zero value (empty string, empty list, `0`, `false`). -/
theorem load_save_catalog_roundtrip (cs : List Component) :
    load_catalog (save_catalog cs) = cs.map (fun c => { c with frontmatter := [] }) ∧
    ∀ k n r p, deserializeComponent
        { kind := k, name := n, repo := r, path := p, description := none,
          keywords := none, line_count := none, has_references := none,
          reference_files := none } =
      { kind := k, name := n, repo := r, path := p, description := "",
        keywords := [], frontmatter := [], line_count := 0,
        has_references := false, reference_files := [] } := by
  constructor
  · simp only [load_catalog, save_catalog, List.map_map]
    have h : deserializeComponent ∘ serializeComponent =
        fun c => { c with frontmatter := [] } := funext fun c => rfl
    rw [h]
  · intro k n r p
    rfl

/-! ## C4: gap finding -/

/-- The `best_sim` fold is below `t` exactly when the initial value is below
`t` and every same-kind similarity is below `t`. -/
theorem bestSim_lt_iff (our : List Component) (e : Component) (t : ℚ) :
    bestSim our e < t ↔
      0 < t ∧ ∀ o ∈ our, o.kind = e.kind → combined_similarity o e < t := by
  suffices h : ∀ (l : List Component) (init : ℚ),
      (l.foldl
          (fun best ours =>
            if ours.kind ≠ e.kind then best
            else max best (combined_similarity ours e)) init < t ↔
        init < t ∧ ∀ o ∈ l, o.kind = e.kind → combined_similarity o e < t) by
    simpa [bestSim] using h our 0
  intro l
  induction l with
  | nil => intro init; simp
  | cons o l ih =>
    intro init
    simp only [List.foldl_cons, List.forall_mem_cons]
    rw [ih]
    by_cases h : o.kind = e.kind
    · rw [if_neg (not_not_intro h), max_lt_iff]
      constructor
      · rintro ⟨⟨hi, ho⟩, hrest⟩
        exact ⟨hi, fun _ => ho, hrest⟩
      · rintro ⟨hi, ho, hrest⟩
        exact ⟨⟨hi, ho h⟩, hrest⟩
    · rw [if_pos h]
      constructor
      · rintro ⟨hi, hrest⟩
        exact ⟨hi, fun hk => absurd hk h, hrest⟩
      · rintro ⟨hi, _, hrest⟩
        exact ⟨hi, hrest⟩

/-- **C4**: an external component `e` is reported as a gap exactly when its
best same-kind similarity is strictly below the threshold — equivalently,
the threshold is positive and every same-kind "ours" similarity is below
it — AND no "ours" component (of any kind) has the same name.  In
particular, a name-equal external component is excluded even when every
similarity is `0`. -/
theorem find_unmatched_mem_iff (ext our : List Component) (t : ℚ) (e : Component)
    (he : e ∈ ext) :
    e ∈ find_unmatched ext our t ↔
      (0 < t ∧ ∀ o ∈ our, o.kind = e.kind → combined_similarity o e < t) ∧
      ∀ o ∈ our, o.name ≠ e.name := by
  simp only [find_unmatched, List.mem_filter, he, true_and, Bool.and_eq_true,
    decide_eq_true_eq, bestSim_lt_iff, Bool.not_eq_true', List.any_eq_false]

/-- Gap-finder witness components: same name `review`, different kinds,
no keyword overlap. -/
def gapExt : Component :=
  { kind := "skill", name := "review", repo := "ext", path := "skills/review/SKILL.md" }

def gapOur : Component :=
  { kind := "agent", name := "review", repo := "ours", path := "agents/review.md" }

/-- **C4 (witness)**: the characterization applied at a concrete input — an
external component whose name equals an "ours" component's name is not a
gap, although every similarity against same-kind components is `0`
(vacuously: there are none). -/
theorem find_unmatched_mem_iff_witness :
    gapExt ∉ find_unmatched [gapExt] [gapOur] (15 / 100) := fun hmem =>
  (((find_unmatched_mem_iff [gapExt] [gapOur] (15 / 100) gapExt (by decide)).mp
      hmem).2 gapOur (by decide)) rfl

/-! ## The code-point order used by the Python sorts -/

/-- `lexLe` agrees with the negation of the lexicographic `Lex (· < ·)` in
the opposite direction. -/
theorem lexLe_iff_not_lex :
    ∀ x y : List Char, lexLe x y = true ↔ ¬List.Lex (· < ·) y x
  | [], y => iff_of_true rfl (fun h => by cases h)
  | a :: as, [] =>
    iff_of_false (by simp [lexLe]) (fun h => h List.Lex.nil)
  | a :: as, b :: bs => by
    rcases lt_trichotomy a b with h | h | h
    · rw [lexLe, if_pos h]
      refine iff_of_true rfl (fun hl => ?_)
      cases hl with
      | cons hl' => exact absurd h (lt_irrefl _)
      | rel hba => exact absurd h (asymm hba)
    · subst h
      rw [lexLe, if_neg (lt_irrefl a), if_neg (lt_irrefl a)]
      rw [lexLe_iff_not_lex as bs]
      exact (not_congr List.Lex.cons_iff).symm
    · rw [lexLe, if_neg (asymm h), if_pos h]
      exact iff_of_false (by simp) (fun hr => hr (List.Lex.rel h))

/-- `lexLe` on the character lists is the string order `≤` (both are
code-point lexicographic). -/
theorem lexLe_iff_le (a b : String) : lexLe a.data b.data = true ↔ a ≤ b := by
  rw [lexLe_iff_not_lex]
  have h1 : List.Lex (· < ·) b.data a.data ↔ b.toList < a.toList := Iff.rfl
  rw [h1, ← String.lt_iff_toList_lt, not_lt]

theorem pySortedSet_sorted (l : List String) :
    (pySortedSet l).Sorted (· ≤ ·) := by
  haveI inst1 : IsTotal String (fun a b => lexLe a.data b.data = true) :=
    ⟨fun a b => by rw [lexLe_iff_le, lexLe_iff_le]; exact le_total a b⟩
  haveI inst2 : IsTrans String (fun a b => lexLe a.data b.data = true) :=
    ⟨fun a b c h1 h2 => by
      rw [lexLe_iff_le] at h1 h2 ⊢; exact le_trans h1 h2⟩
  exact (List.sorted_insertionSort _ _).imp fun h => (lexLe_iff_le _ _).mp h

theorem pySortedSet_nodup (l : List String) : (pySortedSet l).Nodup :=
  ((List.perm_insertionSort _ _).nodup_iff).mpr l.nodup_dedup

theorem pySortedSet_mem (a : String) (l : List String) :
    a ∈ pySortedSet l ↔ a ∈ l := by
  rw [pySortedSet, List.mem_insertionSort, List.mem_dedup]

/-! ## Lowercase invariants of the keyword extractor -/

theorem isAsciiUpper_iff (c : Char) :
    isAsciiUpper c = true ↔ 65 ≤ c.toNat ∧ c.toNat ≤ 90 := by
  simp [isAsciiUpper, Bool.and_eq_true]

theorem isAsciiUpper_lowerChar (c : Char) : isAsciiUpper (lowerChar c) = false := by
  rw [lowerChar]
  split
  · next h =>
    obtain ⟨h1, h2⟩ := h
    revert h1 h2
    generalize c.toNat = n
    intro h1 h2
    interval_cases n <;> decide
  · next h =>
    rw [Bool.eq_false_iff]
    intro hb
    exact h (isAsciiUpper_iff c |>.mp hb)

theorem isAsciiUpper_of_isLowerDigit (c : Char) (h : isLowerDigit c = true) :
    isAsciiUpper c = false := by
  rw [Bool.eq_false_iff]
  intro hb
  rw [isAsciiUpper_iff] at hb
  simp only [isLowerDigit, Bool.or_eq_true, Bool.and_eq_true, decide_eq_true_eq] at h
  omega

theorem nameKeywords_lower (name : String) (kw : String)
    (hkw : kw ∈ nameKeywords name) : ∀ c ∈ kw.data, isAsciiUpper c = false := by
  simp only [nameKeywords, List.mem_filterMap] at hkw
  obtain ⟨part, hp, heq⟩ := hkw
  by_cases hc : 2 < part.length
  · rw [if_pos hc, Option.some.injEq] at heq
    subst heq
    intro c hc'
    obtain ⟨d, _, rfl⟩ := List.mem_map.mp hc'
    exact isAsciiUpper_lowerChar d
  · rw [if_neg hc] at heq
    exact absurd heq (by simp)

theorem headingKeywords_lower (text : String) (kw : String)
    (hkw : kw ∈ headingKeywords text) : ∀ c ∈ kw.data, isAsciiUpper c = false := by
  simp only [headingKeywords, List.mem_flatMap] at hkw
  obtain ⟨g, _, hg⟩ := hkw
  simp only [headingKeywordsOfGroup, List.mem_filterMap] at hg
  obtain ⟨w, _, heq⟩ := hg
  by_cases hc : 3 < ((w.map lowerChar).filter isLowerDigit).length
  · rw [if_pos hc, Option.some.injEq] at heq
    subst heq
    intro c hc'
    exact isAsciiUpper_of_isLowerDigit c (List.of_mem_filter hc')
  · rw [if_neg hc] at heq
    exact absurd heq (by simp)

theorem triggerKeywords_lower (text : String) (kw : String)
    (hkw : kw ∈ triggerKeywords text) : ∀ c ∈ kw.data, isAsciiUpper c = false := by
  simp only [triggerKeywords, List.mem_flatMap] at hkw
  obtain ⟨g, _, hg⟩ := hkw
  simp only [triggerKeywordsOfGroup, List.mem_filterMap] at hg
  obtain ⟨w, _, heq⟩ := hg
  by_cases hc : 2 < ((stripValue w).map lowerChar).length ∧
      ((stripValue w).map lowerChar).length < 30
  · rw [if_pos hc, Option.some.injEq] at heq
    subst heq
    intro c hc'
    obtain ⟨d, _, rfl⟩ := List.mem_map.mp hc'
    exact isAsciiUpper_lowerChar d
  · rw [if_neg hc] at heq
    exact absurd heq (by simp)

/-! ## C10: canonical keyword lists -/

/-- **C10**: for every text and name, `extract_keywords` returns a list that
is sorted ascending in the string order, has no duplicates, and whose every
element contains no ASCII uppercase letter (the extractor lowercases every
token it keeps; `isAsciiUpper` is the `A`–`Z` test). -/
theorem extract_keywords_canonical (text name : String) :
    (extract_keywords text name).Sorted (· ≤ ·) ∧
    (extract_keywords text name).Nodup ∧
    ∀ kw ∈ extract_keywords text name, ∀ c ∈ kw.data, isAsciiUpper c = false := by
  refine ⟨pySortedSet_sorted _, pySortedSet_nodup _, fun kw hkw => ?_⟩
  rw [extract_keywords, pySortedSet_mem, List.mem_append, List.mem_append] at hkw
  rcases hkw with (h | h) | h
  · exact nameKeywords_lower name kw h
  · exact headingKeywords_lower text kw h
  · exact triggerKeywords_lower text kw h

/-- **C10 (witness)**: the canonicality theorem applied at a concrete text
and name, with the membership hypothesis discharged on the concrete keyword
`bar` extracted from the name `Foo-Bar`. -/
theorem extract_keywords_canonical_witness :
    "bar" ∈ extract_keywords "" "Foo-Bar" ∧
      ∀ c ∈ ("bar" : String).data, isAsciiUpper c = false :=
  ⟨by decide, (extract_keywords_canonical "" "Foo-Bar").2.2 "bar" (by decide)⟩

/-! ## C2: the name contribution of the keyword extractor -/

/-- Modelled from the spec's words for C2: the claimed name contribution,
splitting the component name on BOTH hyphen and underscore before the
length->2 filter and lowercasing (the code splits on hyphen only). -/
def nameKeywordsSplitUnderscore (name : String) : List String :=
  (wordsBy isPySpace (replChar '_' ' ' (replChar '-' ' ' name.data))).filterMap
    (fun part =>
      if 2 < part.length then some (String.mk (part.map lowerChar)) else none)

/-- **C2, counterexample**: for the name `foo_bar` and empty text, the code
keeps the underscore-joined token whole and returns `["foo_bar"]`, while the
claimed hyphen-and-underscore split would return `["bar", "foo"]`. -/
theorem extract_keywords_underscore_not_split :
    extract_keywords "" "foo_bar" = ["foo_bar"] ∧
    pySortedSet (nameKeywordsSplitUnderscore "foo_bar" ++ headingKeywords "" ++
      triggerKeywords "") = ["bar", "foo"] ∧
    (["foo_bar"] : List String) ≠ ["bar", "foo"] :=
  ⟨by decide, by decide, by decide⟩

/-- **C2 (amended)**: for every document text and component name, the
returned keyword list contains exactly the lowercased words of length
greater than 2 obtained by splitting the name on hyphen ONLY (underscores
are not separators — an underscore-joined name contributes its token whole),
merged with the heading-derived and the trigger-derived keywords. -/
theorem extract_keywords_mem_iff (text name : String) (k : String) :
    k ∈ extract_keywords text name ↔
      ((∃ part ∈ wordsBy isPySpace (replChar '-' ' ' name.data),
          2 < part.length ∧ k = String.mk (part.map lowerChar)) ∨
        k ∈ headingKeywords text ∨ k ∈ triggerKeywords text) := by
  rw [extract_keywords, pySortedSet_mem]
  simp only [List.mem_append, List.mem_filterMap, nameKeywords, or_assoc]
  apply or_congr _ Iff.rfl
  constructor
  · rintro ⟨part, hp, heq⟩
    by_cases hc : 2 < part.length
    · rw [if_pos hc, Option.some.injEq] at heq
      exact ⟨part, hp, hc, heq.symm⟩
    · rw [if_neg hc] at heq
      exact absurd heq (by simp)
  · rintro ⟨part, hp, hc, rfl⟩
    exact ⟨part, hp, by rw [if_pos hc]⟩

/-- **C2 (witness)**: the membership characterization applied at the name
`foo_bar` with empty text: the whole token `foo_bar` is a keyword. -/
theorem extract_keywords_mem_iff_witness :
    "foo_bar" ∈ extract_keywords "" "foo_bar" :=
  (extract_keywords_mem_iff "" "foo_bar" "foo_bar").mpr
    (Or.inl ⟨"foo_bar".data, by decide, by decide, by decide⟩)

/-! ## C9: quote stripping in the frontmatter parser -/

theorem dropWhile_eq_self_of_head (p : Char → Bool) (l : List Char)
    (h : ∀ c, l.head? = some c → p c = false) : l.dropWhile p = l := by
  cases l with
  | nil => rfl
  | cons c cs =>
    rw [List.dropWhile_cons, h c rfl]
    simp

theorem dropTrail_eq_self_of_getLast (p : Char → Bool) (l : List Char)
    (h : ∀ c, l.getLast? = some c → p c = false) : dropTrail p l = l := by
  rw [dropTrail, dropWhile_eq_self_of_head, List.reverse_reverse]
  intro c hc
  exact h c (by rwa [List.head?_reverse] at hc)

theorem dropWhile_replicate_append (p : Char → Bool) (a : Char) (h : p a = true)
    (n : Nat) (l : List Char) :
    (List.replicate n a ++ l).dropWhile p = l.dropWhile p := by
  induction n with
  | zero => simp
  | succ n ih => simp [List.replicate_succ, List.dropWhile_cons, h, ih]

theorem dropTrail_append_replicate (p : Char → Bool) (a : Char) (h : p a = true)
    (n : Nat) (l : List Char) :
    dropTrail p (l ++ List.replicate n a) = dropTrail p l := by
  rw [dropTrail, dropTrail, List.reverse_append, List.reverse_replicate,
    dropWhile_replicate_append p a h]

/-- A value core fit for the quote-stripping statements: nonempty, and
neither end is a quote character or whitespace. -/
def plainEnd (oc : Option Char) : Bool :=
  match oc with
  | some c => !(c = '"' || c = '\'' || isPySpace c)
  | none => false

def plainEnds (w : List Char) : Bool :=
  plainEnd w.head? && plainEnd w.getLast?

theorem plainEnds_spec (w : List Char) (hw : plainEnds w = true) :
    w ≠ [] ∧
    (∀ c, w.head? = some c →
      decide (c = '"') = false ∧ decide (c = '\'') = false ∧ isPySpace c = false) ∧
    (∀ c, w.getLast? = some c →
      decide (c = '"') = false ∧ decide (c = '\'') = false ∧ isPySpace c = false) := by
  rw [plainEnds, Bool.and_eq_true] at hw
  obtain ⟨h1, h2⟩ := hw
  refine ⟨?_, ?_, ?_⟩
  · intro he
    rw [he] at h1
    exact absurd h1 (by simp [plainEnd])
  · intro c hc
    rw [hc] at h1
    simpa [plainEnd, not_or, and_assoc] using h1
  · intro c hc
    rw [hc] at h2
    simpa [plainEnd, not_or, and_assoc] using h2

/-- Modelled from the spec's words for C9: strip exactly one layer of
surrounding quotes — one pair of double quotes, else one pair of single
quotes, else nothing. -/
def stripOneQuoteLayer (s : List Char) : List Char :=
  if 2 ≤ s.length ∧ s.head? = some '"' ∧ s.getLast? = some '"' then
    (s.drop 1).dropLast
  else if 2 ≤ s.length ∧ s.head? = some '\'' ∧ s.getLast? = some '\'' then
    (s.drop 1).dropLast
  else s

/-- **C9, counterexample**: for the frontmatter line `k: ""hi""` the parser
stores the value `hi` — both double-quote layers are removed — whereas
stripping exactly one surrounding layer from the whitespace-stripped raw
value `""hi""` yields `"hi"`, so the inner layer is NOT retained. -/
theorem parseFrontmatter_value_quotes :
    parseFrontmatterLines ["k: \"\"hi\"\""] = [("k", "hi")] ∧
    stripOneQuoteLayer (pyStrip "\"\"hi\"\"".data) = "\"hi\"".data ∧
    ("hi" : String) ≠ "\"hi\"" :=
  ⟨by decide, by decide, by decide⟩

/-- **C9 (amended)**: the parser strips ALL surrounding double-quote
characters and then ALL surrounding single-quote characters from a value —
a value wrapped in any number `n` of double-quote layers loses every layer;
only a quote layer of the other kind directly inside a single-quote layer
survives (double quotes inside single quotes are retained).  The third
conjunct runs the actual line loop on the line `k: <n quotes>w<n quotes>`
and obtains the bare core `w`. -/
theorem parseFrontmatter_strips_all_quote_layers (n : Nat) (w : List Char)
    (hw : plainEnds w = true) :
    stripValue (List.replicate n '"' ++ (w ++ List.replicate n '"')) = w ∧
    stripValue ('\'' :: ('"' :: (w ++ ['"', '\'']))) = '"' :: (w ++ ['"']) ∧
    parseFrontmatterLines
        [String.mk ('k' :: ':' :: ' ' ::
          (List.replicate n '"' ++ (w ++ List.replicate n '"')))] =
      [("k", String.mk w)] := by
  obtain ⟨hne, hhead, hlast⟩ := plainEnds_spec w hw
  obtain ⟨c0, hc0⟩ : ∃ c, w.head? = some c := by
    cases hw' : w.head? with
    | none => exact absurd (List.head?_eq_none_iff.mp hw') hne
    | some c => exact ⟨c, rfl⟩
  obtain ⟨c1, hc1⟩ : ∃ c, w.getLast? = some c :=
    ⟨w.getLast hne, List.getLast?_eq_getLast w hne⟩
  have hVne : List.replicate n '"' ++ (w ++ List.replicate n '"') ≠ [] := by
    intro h
    rcases List.append_eq_nil.mp h with ⟨-, h2⟩
    rcases List.append_eq_nil.mp h2 with ⟨h3, -⟩
    exact hne h3
  have hWRhead : ∀ c, (w ++ List.replicate n '"').head? = some c →
      (decide (c = '"')) = false := by
    intro c hc
    rw [List.head?_append, hc0, Option.or_some] at hc
    injection hc with h
    subst h
    exact (hhead c0 hc0).1
  have h2 : pyStripChar '"' (List.replicate n '"' ++ (w ++ List.replicate n '"')) = w := by
    rw [pyStripChar, dropWhile_replicate_append _ _ (by decide),
      dropWhile_eq_self_of_head _ _ hWRhead,
      dropTrail_append_replicate _ _ (by decide)]
    apply dropTrail_eq_self_of_getLast
    intro c hc
    rw [hc1] at hc
    injection hc with h
    subst h
    exact (hlast c1 hc1).1
  have h3 : pyStripChar '\'' w = w := by
    rw [pyStripChar]
    rw [dropWhile_eq_self_of_head _ _ (fun c hc => by
      rw [hc0] at hc
      injection hc with h
      subst h
      exact (hhead c0 hc0).2.1)]
    exact dropTrail_eq_self_of_getLast _ _ (fun c hc => by
      rw [hc1] at hc
      injection hc with h
      subst h
      exact (hlast c1 hc1).2.1)
  have hVhead : ∀ c, (List.replicate n '"' ++ (w ++ List.replicate n '"')).head? = some c →
      isPySpace c = false := by
    intro c hc
    cases n with
    | zero =>
      simp only [List.replicate_zero, List.nil_append, List.append_nil] at hc
      rw [hc0] at hc
      injection hc with h
      subst h
      exact (hhead c0 hc0).2.2
    | succ m =>
      rw [List.replicate_succ, List.cons_append] at hc
      injection hc with h
      subst h
      decide
  have hVlast : ∀ c, (List.replicate n '"' ++ (w ++ List.replicate n '"')).getLast? = some c →
      isPySpace c = false := by
    intro c hc
    cases n with
    | zero =>
      simp only [List.replicate_zero, List.nil_append, List.append_nil] at hc
      rw [hc1] at hc
      injection hc with h
      subst h
      exact (hlast c1 hc1).2.2
    | succ m =>
      have hRlast : (List.replicate (m + 1) '"').getLast? = some '"' := by
        rw [List.replicate_succ', List.getLast?_append]
        simp
      rw [List.getLast?_append, List.getLast?_append, hRlast] at hc
      simp only [Option.or_some] at hc
      injection hc with h
      subst h
      decide
  have h1a : pyStrip (List.replicate n '"' ++ (w ++ List.replicate n '"')) =
      List.replicate n '"' ++ (w ++ List.replicate n '"') := by
    rw [pyStrip, dropWhile_eq_self_of_head _ _ hVhead]
    exact dropTrail_eq_self_of_getLast _ _ hVlast
  have h1b : pyStrip (' ' :: (List.replicate n '"' ++ (w ++ List.replicate n '"'))) =
      List.replicate n '"' ++ (w ++ List.replicate n '"') := by
    rw [pyStrip, List.dropWhile_cons, if_pos (by decide : isPySpace ' ' = true),
      dropWhile_eq_self_of_head _ _ hVhead]
    exact dropTrail_eq_self_of_getLast _ _ hVlast
  refine ⟨?_, ?_, ?_⟩
  · rw [stripValue, h1a, h2, h3]
  · -- mixed layers: double quotes directly inside single quotes survive
    have hMlast : ('\'' :: ('"' :: (w ++ ['"', '\'']))).getLast? = some '\'' := by
      rw [show ('\'' :: ('"' :: (w ++ ['"', '\'']))) =
        ('\'' :: ('"' :: (w ++ ['"']))) ++ ['\''] from by simp, List.getLast?_append]
      simp
    have hstrip : pyStrip ('\'' :: ('"' :: (w ++ ['"', '\'']))) =
        '\'' :: ('"' :: (w ++ ['"', '\''])) := by
      rw [pyStrip, dropWhile_eq_self_of_head _ _ (fun c hc => by
        injection hc with h
        subst h
        decide)]
      exact dropTrail_eq_self_of_getLast _ _ (fun c hc => by
        rw [hMlast] at hc
        injection hc with h
        subst h
        decide)
    have hdq : pyStripChar '"' ('\'' :: ('"' :: (w ++ ['"', '\'']))) =
        '\'' :: ('"' :: (w ++ ['"', '\''])) := by
      rw [pyStripChar, dropWhile_eq_self_of_head _ _ (fun c hc => by
        injection hc with h
        subst h
        decide)]
      exact dropTrail_eq_self_of_getLast _ _ (fun c hc => by
        rw [hMlast] at hc
        injection hc with h
        subst h
        decide)
    have hNlast : ('"' :: (w ++ ['"'])).getLast? = some '"' := by
      rw [show ('"' :: (w ++ ['"'])) = ('"' :: w) ++ ['"'] from by simp,
        List.getLast?_append]
      simp
    have hsq : pyStripChar '\'' ('\'' :: ('"' :: (w ++ ['"', '\'']))) =
        '"' :: (w ++ ['"']) := by
      rw [pyStripChar, List.dropWhile_cons, if_pos (by decide),
        List.dropWhile_cons, if_neg (by decide)]
      rw [show ('"' :: (w ++ ['"', '\''])) = ('"' :: (w ++ ['"'])) ++ List.replicate 1 '\''
        from by simp]
      rw [dropTrail_append_replicate _ _ (by decide)]
      exact dropTrail_eq_self_of_getLast _ _ (fun c hc => by
        rw [hNlast] at hc
        injection hc with h
        subst h
        decide)
    rw [stripValue, hstrip, hdq, hsq]
  · -- the whole line loop on `k: <n quotes>w<n quotes>`
    have hline : pyStrip ('k' :: ':' :: ' ' ::
        (List.replicate n '"' ++ (w ++ List.replicate n '"'))) =
        'k' :: ':' :: ' ' :: (List.replicate n '"' ++ (w ++ List.replicate n '"')) := by
      rw [pyStrip, dropWhile_eq_self_of_head _ _ (fun c hc => by
        injection hc with h
        subst h
        decide)]
      apply dropTrail_eq_self_of_getLast
      intro c hc
      rw [show ('k' :: ':' :: ' ' :: (List.replicate n '"' ++ (w ++ List.replicate n '"'))) =
        ['k', ':', ' '] ++ (List.replicate n '"' ++ (w ++ List.replicate n '"')) from rfl,
        List.getLast?_append, List.getLast?_eq_getLast _ hVne, Option.or_some] at hc
      injection hc with h
      subst h
      exact hVlast _ (List.getLast?_eq_getLast _ hVne)
    simp only [parseFrontmatterLines, List.foldl_cons, List.foldl_nil]
    rw [hline]
    rw [if_neg (by simp)]
    rw [if_neg (by
      intro h
      injection h with h'
      exact absurd h' (by decide))]
    rw [if_pos (by simp [List.contains_cons])]
    have hkey : ('k' :: ':' :: ' ' ::
        (List.replicate n '"' ++ (w ++ List.replicate n '"'))).takeWhile
        (fun c => decide ¬(c = ':')) = ['k'] := by
      simp [List.takeWhile_cons]
    have hval : (('k' :: ':' :: ' ' ::
        (List.replicate n '"' ++ (w ++ List.replicate n '"'))).dropWhile
        (fun c => decide ¬(c = ':'))).drop 1 =
        ' ' :: (List.replicate n '"' ++ (w ++ List.replicate n '"')) := by
      simp [List.dropWhile_cons]
    rw [hkey, hval]
    have hsv : stripValue (' ' :: (List.replicate n '"' ++ (w ++ List.replicate n '"'))) = w := by
      rw [stripValue, h1b, h2, h3]
    rw [hsv]
    have hk : String.mk (pyStrip ['k']) = "k" := by decide
    rw [hk]
    simp [dictInsert]

/-- **C9 (witness)**: the amended theorem applied at two double-quote layers
around the core `hi`: the parser removes both layers. -/
theorem parseFrontmatter_strips_all_quote_layers_witness :
    plainEnds "hi".data = true ∧
    stripValue (List.replicate 2 '"' ++ ("hi".data ++ List.replicate 2 '"')) = "hi".data ∧
    parseFrontmatterLines
        [String.mk ('k' :: ':' :: ' ' ::
          (List.replicate 2 '"' ++ ("hi".data ++ List.replicate 2 '"')))] =
      [("k", "hi")] :=
  ⟨by decide, (parseFrontmatter_strips_all_quote_layers 2 "hi".data (by decide)).1,
    (parseFrontmatter_strips_all_quote_layers 2 "hi".data (by decide)).2.2⟩

/-! ## C5: overlap finding -/

theorem mem_overlapCandidates (our ext : List Component) (t : ℚ) (m : Match) :
    m ∈ overlapCandidates our ext t ↔
      ∃ o ∈ our, ∃ e ∈ ext, o.kind = e.kind ∧ t ≤ combined_similarity o e ∧
        m = mkMatch o e := by
  simp only [overlapCandidates, List.mem_flatMap, List.mem_filterMap]
  constructor
  · rintro ⟨o, ho, e, he, hf⟩
    by_cases h1 : o.kind = e.kind
    · rw [if_neg (not_not_intro h1)] at hf
      by_cases h2 : combined_similarity o e ≥ t
      · rw [if_pos h2] at hf
        injection hf with hf
        exact ⟨o, ho, e, he, h1, h2, hf.symm⟩
      · rw [if_neg h2] at hf
        exact absurd hf (by simp)
    · rw [if_pos h1] at hf
      exact absurd hf (by simp)
  · rintro ⟨o, ho, e, he, h1, h2, rfl⟩
    exact ⟨o, ho, e, he, by rw [if_neg (not_not_intro h1), if_pos h2]⟩

/-- **C5**: `find_overlaps` returns exactly the same-kind pairs whose
combined similarity is at least the threshold (a pair of different kinds
never appears), sorted by similarity descending; and, for every similarity
value `s`, the matches of similarity `s` appear in exactly their discovery
order (the pairwise-loop order over `overlapCandidates`) — the sort is
stable. -/
theorem find_overlaps_spec (our ext : List Component) (t : ℚ) :
    (∀ m, m ∈ find_overlaps our ext t ↔
      ∃ o ∈ our, ∃ e ∈ ext, o.kind = e.kind ∧ t ≤ combined_similarity o e ∧
        m = mkMatch o e) ∧
    (∀ m ∈ find_overlaps our ext t, m.ours.kind = m.theirs.kind) ∧
    (find_overlaps our ext t).Pairwise (fun a b => b.similarity ≤ a.similarity) ∧
    (∀ s : ℚ,
      (find_overlaps our ext t).filter (fun m => decide (m.similarity = s)) =
        (overlapCandidates our ext t).filter (fun m => decide (m.similarity = s))) := by
  refine ⟨?_, ?_, ?_, ?_⟩
  · intro m
    rw [find_overlaps, List.mem_insertionSort, mem_overlapCandidates]
  · intro m hm
    rw [find_overlaps, List.mem_insertionSort] at hm
    obtain ⟨o, -, e, -, h1, -, rfl⟩ := (mem_overlapCandidates our ext t m).mp hm
    exact h1
  · haveI : IsTotal Match (fun a b => b.similarity ≤ a.similarity) :=
      ⟨fun a b => le_total b.similarity a.similarity⟩
    haveI : IsTrans Match (fun a b => b.similarity ≤ a.similarity) :=
      ⟨fun a b c h1 h2 => le_trans h2 h1⟩
    rw [find_overlaps]
    exact List.sorted_insertionSort _ _
  · intro s
    have hsub : List.Sublist
        ((overlapCandidates our ext t).filter (fun m => decide (m.similarity = s)))
        (find_overlaps our ext t) := by
      rw [find_overlaps]
      apply List.sublist_insertionSort
      · apply List.pairwise_of_forall_mem_list
        intro a ha b hb
        have ha' := (List.mem_filter.mp ha).2
        have hb' := (List.mem_filter.mp hb).2
        rw [decide_eq_true_eq] at ha' hb'
        rw [ha', hb']
      · exact List.filter_sublist _
    have hlen : ((find_overlaps our ext t).filter
        (fun m => decide (m.similarity = s))).length =
        ((overlapCandidates our ext t).filter
          (fun m => decide (m.similarity = s))).length :=
      ((List.perm_insertionSort _ _).filter _).length_eq
    have hcf : ((overlapCandidates our ext t).filter
        (fun m => decide (m.similarity = s))).filter
          (fun m => decide (m.similarity = s)) =
        (overlapCandidates our ext t).filter (fun m => decide (m.similarity = s)) := by
      apply List.filter_eq_self.mpr
      intro a ha
      exact (List.mem_filter.mp ha).2
    have hss := hsub.filter (fun m => decide (m.similarity = s))
    rw [hcf] at hss
    exact (hss.eq_of_length hlen.symm).symm

/-- **C5 (witness)**: the characterization applied at one "ours" and one
"external" skill with equal names: their match (similarity `3/5 ≥ 3/20`) is
in the result. -/
theorem find_overlaps_spec_witness :
    mkMatch compNoKeywords compWithKeywords ∈
      find_overlaps [compNoKeywords] [compWithKeywords] (15 / 100) := by
  have hsim : combined_similarity compNoKeywords compWithKeywords = 3 / 5 := by
    simp [combined_similarity, keyword_similarity, compNoKeywords, compWithKeywords]
    norm_num
  exact (find_overlaps_spec [compNoKeywords] [compWithKeywords] (15 / 100)).1
    (mkMatch compNoKeywords compWithKeywords) |>.mpr
    ⟨compNoKeywords, by decide, compWithKeywords, by decide, rfl,
      by rw [hsim]; norm_num, rfl⟩

/-! ## C3: the kind filter in the report generator -/

theorem kindMatches_some_iff (k s : String) :
    kindMatches (some k) s = true ↔ s = k := by
  simp [kindMatches]

/-- Every overlap-table row after dedup comes from the filtered match list. -/
theorem dedupMatchRows_subset (ms : List Match) :
    ∀ x ∈ dedupMatchRows ms, x ∈ ms := by
  suffices h : ∀ (l : List Match) (acc : List Match × List (String × String × String)),
      ∀ x ∈ (l.foldl (fun acc m =>
          if acc.2.contains (m.ours.name, m.theirs.name, m.theirs.repo) then acc
          else (acc.1 ++ [m], (m.ours.name, m.theirs.name, m.theirs.repo) :: acc.2))
        acc).1,
        x ∈ acc.1 ∨ x ∈ l by
    intro x hx
    rcases h ms ([], []) x hx with h1 | h1
    · exact absurd h1 (List.not_mem_nil x)
    · exact h1
  intro l
  induction l with
  | nil =>
    intro acc x hx
    exact Or.inl hx
  | cons m ms ih =>
    intro acc x hx
    rw [List.foldl_cons] at hx
    rcases ih _ x hx with h1 | h1
    · by_cases hk : acc.2.contains (m.ours.name, m.theirs.name, m.theirs.repo) = true
      · rw [if_pos hk] at h1
        exact Or.inl h1
      · rw [if_neg hk] at h1
        rcases List.mem_append.mp h1 with h2 | h2
        · exact Or.inl h2
        · obtain rfl := List.mem_singleton.mp h2
          exact Or.inr (List.mem_cons_self x ms)
    · exact Or.inr (List.mem_cons_of_mem m h1)

/-- Every component in a repo group of `groupByRepo` comes from the input
list. -/
theorem groupByRepo_forall (P : Component → Prop) (cs : List Component)
    (hcs : ∀ c ∈ cs, P c) :
    ∀ p ∈ groupByRepo cs, ∀ c ∈ p.2, P c := by
  suffices h : ∀ (l : List Component) (acc : List (String × List Component)),
      (∀ p ∈ acc, ∀ c ∈ p.2, P c) → (∀ c ∈ l, P c) →
      ∀ p ∈ l.foldl (fun acc c =>
          if acc.any (fun p => p.1 = c.repo) then
            acc.map (fun p => if p.1 = c.repo then (p.1, p.2 ++ [c]) else p)
          else acc ++ [(c.repo, [c])]) acc,
        ∀ c ∈ p.2, P c by
    exact fun p hp => h cs [] (by simp) hcs p hp
  intro l
  induction l with
  | nil =>
    intro acc hacc _ p hp
    exact hacc p hp
  | cons c l ih =>
    intro acc hacc hl p hp
    rw [List.foldl_cons] at hp
    refine ih _ ?_ (fun c' hc' => hl c' (List.mem_cons_of_mem _ hc')) p hp
    by_cases hk : acc.any (fun p => p.1 = c.repo) = true
    · rw [if_pos hk]
      intro q hq c' hc'
      obtain ⟨q0, hq0, hq0e⟩ := List.mem_map.mp hq
      by_cases he : q0.1 = c.repo
      · rw [if_pos he] at hq0e
        rw [← hq0e] at hc'
        rcases List.mem_append.mp hc' with h1 | h1
        · exact hacc q0 hq0 c' h1
        · obtain rfl := List.mem_singleton.mp h1
          exact hl c' (List.mem_cons_self c' l)
      · rw [if_neg he] at hq0e
        rw [← hq0e] at hc'
        exact hacc q0 hq0 c' hc'
    · rw [if_neg hk]
      intro q hq c' hc'
      rcases List.mem_append.mp hq with h1 | h1
      · exact hacc q h1 c' hc'
      · obtain rfl := List.mem_singleton.mp h1
        rw [List.mem_singleton.mp hc']
        exact hl c (List.mem_cons_self c l)

/-- Example inputs for the report claims: one skill and one agent in the
same external repo. -/
def repSkill : Component :=
  { kind := "skill", name := "a", repo := "r", path := "skills/a/SKILL.md" }

def repAgent : Component :=
  { kind := "agent", name := "b", repo := "r", path := "agents/b.md" }

/-- **C3, counterexample**: with a `skill` filter and one external repo
holding one skill and one agent, the statistics section reports `2` external
components scanned — the unfiltered total — while the number of external
components of the filtered kind is `1`. -/
theorem generate_report_stats_not_filtered :
    (generate_report [] [("r", [repSkill, repAgent])] [] []
      (some "skill")).stats_external = 2 ∧
    ([repSkill, repAgent].filter (fun c => c.kind == "skill")).length = 1 ∧
    (2 : Nat) ≠ 1 :=
  ⟨by decide, by decide, by decide⟩

/-- **C3 (amended)**: when a kind filter `k` is supplied, every section of
the report except the external-components-scanned statistic draws only on
components and matches of kind `k` (inventory, per-repo summary counts,
overlap table, high-similarity list, unmatched groups, and the filtered
statistics counts); the external-components-scanned statistic, however, is
computed from the UNFILTERED external catalogs and counts every external
component of every kind. -/
theorem generate_report_filter_spec (our : List Component)
    (ext : List (String × List Component)) (ms : List Match)
    (um : List Component) (k : String) :
    (∀ c ∈ (generate_report our ext ms um (some k)).our_filtered,
      c.kind = k ∧ c ∈ our) ∧
    (∀ p ∈ (generate_report our ext ms um (some k)).inventory,
      ∀ c ∈ p.2, c.kind = k ∧ c ∈ our) ∧
    ((generate_report our ext ms um (some k)).repo_summaries =
      (List.insertionSort (fun a b => lexLe a.1.data b.1.data = true) ext).map
        (fun p => (p.1,
          (p.2.filter (fun c => decide (c.kind = k ∧ c.kind = "skill"))).length,
          (p.2.filter (fun c => decide (c.kind = k ∧ c.kind = "agent"))).length))) ∧
    (∀ m ∈ (generate_report our ext ms um (some k)).filtered_matches,
      m.ours.kind = k ∧ m ∈ ms) ∧
    (∀ m ∈ (generate_report our ext ms um (some k)).overlap_rows,
      m.ours.kind = k ∧ m ∈ ms) ∧
    (∀ m ∈ (generate_report our ext ms um (some k)).high_matches,
      m.ours.kind = k ∧ m ∈ ms) ∧
    (∀ c ∈ (generate_report our ext ms um (some k)).filtered_unmatched,
      c.kind = k ∧ c ∈ um) ∧
    (∀ p ∈ (generate_report our ext ms um (some k)).unmatched_groups,
      ∀ c ∈ p.2, c.kind = k ∧ c ∈ um) ∧
    ((generate_report our ext ms um (some k)).stats_our =
      (generate_report our ext ms um (some k)).our_filtered.length) ∧
    ((generate_report our ext ms um (some k)).stats_external =
      (ext.flatMap (fun p => p.2)).length) ∧
    ((generate_report our ext ms um (some k)).stats_matches =
      (generate_report our ext ms um (some k)).filtered_matches.length) ∧
    ((generate_report our ext ms um (some k)).stats_high =
      (generate_report our ext ms um (some k)).high_matches.length) ∧
    ((generate_report our ext ms um (some k)).stats_unmatched =
      (generate_report our ext ms um (some k)).filtered_unmatched.length) := by
  have hourf : ∀ c ∈ (generate_report our ext ms um (some k)).our_filtered,
      c.kind = k ∧ c ∈ our := by
    intro c hc
    simp only [generate_report] at hc
    have := List.mem_filter.mp hc
    exact ⟨(kindMatches_some_iff k c.kind).mp this.2, this.1⟩
  have hfm : ∀ m ∈ (generate_report our ext ms um (some k)).filtered_matches,
      m.ours.kind = k ∧ m ∈ ms := by
    intro m hm
    simp only [generate_report] at hm
    have := List.mem_filter.mp hm
    exact ⟨(kindMatches_some_iff k m.ours.kind).mp this.2, this.1⟩
  have hfu : ∀ c ∈ (generate_report our ext ms um (some k)).filtered_unmatched,
      c.kind = k ∧ c ∈ um := by
    intro c hc
    simp only [generate_report] at hc
    have := List.mem_filter.mp hc
    exact ⟨(kindMatches_some_iff k c.kind).mp this.2, this.1⟩
  refine ⟨hourf, ?_, ?_, hfm, ?_, ?_, hfu, ?_, rfl, ?_, rfl, rfl, rfl⟩
  · -- inventory
    intro p hp c hc
    simp only [generate_report] at hp
    obtain ⟨q, hq, rfl⟩ := List.mem_map.mp (List.mem_filter.mp hp).1
    rw [List.mem_insertionSort] at hc
    exact hourf c (List.mem_filter.mp hc).1
  · -- repo summaries
    simp only [generate_report]
    apply List.map_congr_left
    intro p _
    simp [kindMatches, List.filter_filter, Bool.and_comm]
  · -- overlap rows come from the filtered matches
    intro m hm
    simp only [generate_report] at hm
    exact hfm m (dedupMatchRows_subset _ m hm)
  · -- high-similarity matches come from the filtered matches
    intro m hm
    simp only [generate_report] at hm
    exact hfm m (List.mem_filter.mp hm).1
  · -- unmatched groups
    intro p hp c hc
    simp only [generate_report] at hp
    obtain ⟨q, hq, rfl⟩ := List.mem_map.mp hp
    rw [List.mem_insertionSort] at hc
    rw [List.mem_insertionSort] at hq
    exact groupByRepo_forall (fun c => c.kind = k ∧ c ∈ um) _ hfu q hq c hc
  · -- the external statistic counts every kind
    simp only [generate_report]
    rw [List.length_flatMap]
    rfl

/-- **C3 (witness)**: the amended theorem applied at a concrete report: with
a skill filter, the inventory component is a skill from `our`, and the
external statistic still counts both the skill and the agent. -/
theorem generate_report_filter_spec_witness :
    (repSkill.kind = "skill" ∧ repSkill ∈ [repSkill]) ∧
    (generate_report [repSkill] [("r", [repSkill, repAgent])] [] []
      (some "skill")).stats_external = 2 :=
  ⟨(generate_report_filter_spec [repSkill] [("r", [repSkill, repAgent])] [] []
      "skill").1 repSkill (by decide),
    Eq.trans ((generate_report_filter_spec [repSkill] [("r", [repSkill, repAgent])]
      [] [] "skill").2.2.2.2.2.2.2.2.2.1) (by decide)⟩
